import Mathlib

/-!
Shallow embedding of `cyarg.py`, a declarative CLI argument parsing engine.

The embedding follows the source structure:
* `SynoDict` — the synonym-aware dict (`register`, `__setitem__`, `__delitem__`,
  `to_dict`), modelled as an association list plus a list of synonym sets.
  Python's `KeyError` on deletion is modelled by `Option`.
* `MarkedList` — the token cursor (list plus mark, `get`, in-place `insert` at
  the mark).
* `ArgLoader` — the stateful loader (`load_one`, `load_one_positional`,
  `load_one_1char`, `load_one_nchar`, `try_recognize`, `try_translate`,
  `try_grab_next`, `load_all`).  The `while self.ml_args` loop of `load_all`
  is embedded with explicit fuel; termination with adequate fuel is proved
  below via a `3 ^ length` token measure.
* `process` — the entry point.

Python `RuntimeError`s (and the `IndexError` from indexing an empty token)
are modelled by the `ParseErr` type; converters (arbitrary callables that may
raise) are modelled as `String → Option Value`.
-/

/-- Typed values produced by the parse: raw strings, switch booleans, and
converted values (integers suffice for the schemas considered here). -/
inductive Value where
  | str (s : String)
  | bool (b : Bool)
  | int (n : Int)
deriving DecidableEq, Repr

/-- A converter: Python callable from the raw token string to a typed value;
`none` models the callable raising an exception. -/
def Conv : Type := String → Option Value

/-- Keys of the synonym-aware dicts: positional slots (Python `int` keys) or
argument names (Python `str` keys). -/
inductive Key where
  | pos (k : Nat)
  | name (s : String)
deriving DecidableEq, Repr

/-- The `'n'` field of an argument descriptor: a positional index, a single
name, or a (nonempty) tuple of synonym names. -/
inductive Identity where
  | pos (k : Nat)
  | name (s : String)
  | syns (first : String) (rest : List String)

/-- One argument descriptor: the fields of the Python descriptor dict that
the loader reads (`'n'`, `'t'`, `'d'`), plus the informational `'o'` flag. -/
structure ArgDesc where
  n : Identity
  t : Option Conv := none
  d : Option Value := none
  o : Bool := false

/-- Parse failures: the three `RuntimeError`s raised by the loader, plus the
`IndexError` raised by `cur[0]` when an empty token is classified. -/
inductive ParseErr where
  | unrecognized (printName : String)
  | missingValue (name : String)
  | invalidValue (name : String) (param : String)
  | indexError
deriving DecidableEq, Repr

/-- Association-list lookup, modelling Python `dict.__getitem__`. -/
def findEntry {β : Type} : List (Key × β) → Key → Option β
  | [], _ => none
  | (k, v) :: rest, key => if k = key then some v else findEntry rest key

/-- Association-list write, modelling Python `dict.__setitem__`: overwrite an
existing binding in place, else append a new one. -/
def setEntry {β : Type} (es : List (Key × β)) (key : Key) (v : β) : List (Key × β) :=
  if es.any (fun p => p.1 = key) then
    es.map (fun p => if p.1 = key then (key, v) else p)
  else
    es ++ [(key, v)]

/-- Association-list delete, modelling Python `dict.__delitem__`: `none`
models the `KeyError` raised when the key is absent. -/
def delEntry {β : Type} (es : List (Key × β)) (key : Key) : Option (List (Key × β)) :=
  if es.any (fun p => p.1 = key) then some (es.filter (fun p => p.1 ≠ key)) else none

/-- `SynoDict`: a dict variant that keeps values of registered synonym keys
equal.  `entries` is the underlying dict; `syns` the registered synonym sets. -/
structure SynoDict (β : Type) where
  entries : List (Key × β) := []
  syns : List (List Key) := []

/-- `SynoDict.register`: append an iterable of synonyms. -/
def SynoDict.register {β : Type} (sd : SynoDict β) (synlist : List Key) : SynoDict β :=
  { sd with syns := sd.syns ++ [synlist] }

/-- `SynoDict.__getsyns`: the given key followed by every registered synonym
list containing it; items may be duplicated. -/
def SynoDict.getsyns {β : Type} (sd : SynoDict β) (key : Key) : List Key :=
  key :: (sd.syns.filter (fun synlist => key ∈ synlist)).flatten

/-- `SynoDict.__setitem__`: write through the key and all its synonyms. -/
def SynoDict.setItem {β : Type} (sd : SynoDict β) (key : Key) (v : β) : SynoDict β :=
  { sd with entries := (sd.getsyns key).foldl (fun es k => setEntry es k v) sd.entries }

/-- `SynoDict.__delitem__`: delete through the key and all its synonyms,
raising (`none`) as soon as one of them is absent from the dict. -/
def SynoDict.delItem {β : Type} (sd : SynoDict β) (key : Key) : Option (SynoDict β) :=
  ((sd.getsyns key).foldlM (fun es k => delEntry es k) sd.entries).map
    (fun es => { sd with entries := es })

/-- `SynoDict.to_dict`: the plain dict contents. -/
def SynoDict.to_dict {β : Type} (sd : SynoDict β) : List (Key × β) := sd.entries

/-- `setup_argdesc_sdict`: build the descriptor registry, registering synonym
tuples and keying each descriptor by its first name. -/
def setup_argdesc_sdict (arg_descs : List ArgDesc) : SynoDict ArgDesc :=
  arg_descs.foldl
    (fun sdict desc =>
      match desc.n with
      | .pos k => sdict.setItem (.pos k) desc
      | .name s => sdict.setItem (.name s) desc
      | .syns first rest =>
          (sdict.register ((first :: rest).map Key.name)).setItem (.name first) desc)
    {}

/-- `setup_output_sdict`: build the output accumulator, registering synonym
tuples and seeding declared defaults only. -/
def setup_output_sdict (arg_descs : List ArgDesc) : SynoDict Value :=
  arg_descs.foldl
    (fun sdict desc =>
      let reg := match desc.n with
        | .pos _ => sdict
        | .name _ => sdict
        | .syns first rest => sdict.register ((first :: rest).map Key.name)
      let nameKey := match desc.n with
        | .pos k => Key.pos k
        | .name s => Key.name s
        | .syns first _ => Key.name first
      match desc.d with
      | some v => reg.setItem nameKey v
      | none => reg)
    {}

/-- `MarkedList`: a list wrapper with a mark for the current read position. -/
structure MarkedList where
  lst : List String
  mark : Nat

/-- `MarkedList.get`: the token at the mark and the list with the mark
advanced, or `none` when the mark is past the end (the `while self.ml_args`
guard ensures the Python `None` return is never observed). -/
def MarkedList.get (ml : MarkedList) : Option (String × MarkedList) :=
  match ml.lst[ml.mark]? with
  | some tok => some (tok, ⟨ml.lst, ml.mark + 1⟩)
  | none => none

/-- `self.ml_args.lst.insert(self.ml_args.mark, tok)`: splice a token in at
the current mark (Python `list.insert` clamps like `take`/`drop` do). -/
def MarkedList.insertAtMark (ml : MarkedList) (tok : String) : MarkedList :=
  ⟨ml.lst.take ml.mark ++ tok :: ml.lst.drop ml.mark, ml.mark⟩

/-- `ArgLoader`: the parser state — token cursor, the original descriptor
list, the output accumulator, the descriptor registry, and the 1-based
positional counter. -/
structure ArgLoader where
  ml_args : MarkedList
  arg_descs : List ArgDesc
  sd_out : SynoDict Value
  sd_descs : SynoDict ArgDesc
  cur_positional : Nat

/-- `ArgLoader.__init__`. -/
def ArgLoader.init (arg_descs : List ArgDesc) (args : List String) : ArgLoader :=
  { ml_args := ⟨args, 0⟩
    arg_descs := arg_descs
    sd_out := setup_output_sdict arg_descs
    sd_descs := setup_argdesc_sdict arg_descs
    cur_positional := 1 }

/-- `ArgLoader.try_recognize`: registry lookup, `UnrecognizedArgument`
(naming `print_name`) if absent. -/
def ArgLoader.try_recognize (st : ArgLoader) (name : Key) (printName : String) :
    Except ParseErr ArgDesc :=
  match findEntry st.sd_descs.entries name with
  | some desc => .ok desc
  | none => .error (.unrecognized printName)

/-- `ArgLoader.try_translate`: apply the declared converter, raising
`InvalidArgumentValue` when it rejects; identity on the string otherwise. -/
def ArgLoader.try_translate (param : String) (argdesc : ArgDesc) (name : String) :
    Except ParseErr Value :=
  match argdesc.t with
  | none => .ok (.str param)
  | some conv =>
      match conv param with
      | some v => .ok v
      | none => .error (.invalidValue name param)

/-- `ArgLoader.try_grab_next`: read the next token as a raw value, raising
`MissingArgumentValue` when the cursor is exhausted. -/
def ArgLoader.try_grab_next (st : ArgLoader) (name : String) :
    Except ParseErr (String × MarkedList) :=
  match st.ml_args.get with
  | some (tok, ml) => .ok (tok, ml)
  | none => .error (.missingValue name)

/-- `ArgLoader.load_one_positional`: resolve against the current positional
slot, convert, store, and increment the positional counter. -/
def ArgLoader.load_one_positional (st : ArgLoader) (cur : String) :
    Except ParseErr ArgLoader :=
  match st.try_recognize (.pos st.cur_positional) (toString st.cur_positional) with
  | .error e => .error e
  | .ok argdesc =>
      match ArgLoader.try_translate cur argdesc (toString st.cur_positional) with
      | .error e => .error e
      | .ok v =>
          .ok { st with
                  sd_out := st.sd_out.setItem (.pos st.cur_positional) v
                  cur_positional := st.cur_positional + 1 }

/-- `ArgLoader.load_one_1char`: resolve a `-X...` token; `focus` is the
character after the dash and `rest` the remaining bundle characters.  Valued
single flags grab the next token; nonempty bundles are spliced back in front
of the cursor (in reverse order) for re-processing. -/
def ArgLoader.load_one_1char (st : ArgLoader) (focus : Char) (rest : List Char) :
    Except ParseErr ArgLoader :=
  match st.try_recognize (.name (String.mk [focus])) (String.mk ['-', focus]) with
  | .error e => .error e
  | .ok argdesc =>
      if argdesc.t.isSome then
        if rest.isEmpty then
          match st.try_grab_next (String.mk ['-', focus]) with
          | .error e => .error e
          | .ok (param, ml) =>
              match ArgLoader.try_translate param argdesc (String.mk ['-', focus]) with
              | .error e => .error e
              | .ok v =>
                  .ok { st with
                          ml_args := ml
                          sd_out := st.sd_out.setItem (.name (String.mk [focus])) v }
        else
          .ok { st with
                  ml_args := (st.ml_args.insertAtMark (String.mk rest)).insertAtMark
                    (String.mk ['-', focus]) }
      else
        if rest.isEmpty then
          .ok { st with
                  sd_out := st.sd_out.setItem (.name (String.mk [focus])) (.bool true) }
        else
          .ok { st with
                  ml_args := (st.ml_args.insertAtMark (String.mk ('-' :: rest))).insertAtMark
                    (String.mk ['-', focus]) }

/-- `ArgLoader.load_one_nchar`: resolve a `--XXX` token; `restChars` is the
name after the two dashes.  Valued arguments grab the next token; switches
store `True`. -/
def ArgLoader.load_one_nchar (st : ArgLoader) (restChars : List Char) :
    Except ParseErr ArgLoader :=
  match st.try_recognize (.name (String.mk restChars))
      (String.mk ('-' :: '-' :: restChars)) with
  | .error e => .error e
  | .ok argdesc =>
      if argdesc.t.isSome then
        match st.try_grab_next (String.mk ('-' :: '-' :: restChars)) with
        | .error e => .error e
        | .ok (param, ml) =>
            match ArgLoader.try_translate param argdesc
                (String.mk ('-' :: '-' :: restChars)) with
            | .error e => .error e
            | .ok v =>
                .ok { st with
                        ml_args := ml
                        sd_out := st.sd_out.setItem (.name (String.mk restChars)) v }
      else
        .ok { st with
                sd_out := st.sd_out.setItem (.name (String.mk restChars)) (.bool true) }

/-- `ArgLoader.load_one`: classify one token.  The Python guard
`len(cur) == 1 or cur[0] != '-' or cur == '--'` indexes `cur[0]` unguarded,
so the empty token raises `IndexError`. -/
def ArgLoader.load_one (st : ArgLoader) (cur : String) : Except ParseErr ArgLoader :=
  match cur.data with
  | [] => .error .indexError
  | [_] => st.load_one_positional cur
  | c0 :: c1 :: rest =>
      if c0 ≠ '-' then st.load_one_positional cur
      else if c1 = '-' ∧ rest = [] then st.load_one_positional cur
      else if c1 ≠ '-' then st.load_one_1char c1 rest
      else st.load_one_nchar rest

/-- `ArgLoader.load_all`, with explicit fuel for the `while self.ml_args`
loop: drain the cursor one decision at a time, then snapshot the output.
`none` means the fuel ran out; termination with adequate fuel is proved
below. -/
def ArgLoader.load_all : Nat → ArgLoader → Option (Except ParseErr (List (Key × Value)))
  | 0, _ => none
  | fuel + 1, st =>
      match st.ml_args.get with
      | none => some (.ok st.sd_out.to_dict)
      | some (cur, ml) =>
          match ArgLoader.load_one { st with ml_args := ml } cur with
          | .error e => some (.error e)
          | .ok st' => ArgLoader.load_all fuel st'

/-- Token measure for termination: each flag-bundle splice consumes a token
and re-inserts strictly cheaper ones under this measure. -/
def tokenMeasure (tok : String) : Nat := 3 ^ tok.length

/-- Measure of a token list. -/
def listMeasure (toks : List String) : Nat := (toks.map tokenMeasure).sum

/-- Measure of the unread remainder of the cursor. -/
def MarkedList.measure (ml : MarkedList) : Nat := listMeasure (ml.lst.drop ml.mark)

/-- Measure of the loader state. -/
def ArgLoader.measure (st : ArgLoader) : Nat := st.ml_args.measure

/-- `process`: the entry point — build a loader and drain it.  The fuel
`listMeasure args + 1` is sufficient (proved below). -/
def process (arg_descs : List ArgDesc) (args : List String) :
    Option (Except ParseErr (List (Key × Value))) :=
  ArgLoader.load_all (listMeasure args + 1) (ArgLoader.init arg_descs args)

/-- Lookup of a key in a successful parse result. -/
def resultLookup (r : Option (Except ParseErr (List (Key × Value)))) (key : Key) :
    Option Value :=
  match r with
  | some (.ok es) => findEntry es key
  | _ => none

/-- The Python `str` converter: identity on strings. -/
def strConv : Conv := fun s => some (.str s)

/-- Accumulating decimal-digit parser; `none` on any non-digit character. -/
def parseDigits : List Char → Nat → Option Nat
  | [], acc => some acc
  | c :: cs, acc =>
      if '0' ≤ c ∧ c ≤ '9' then parseDigits cs (acc * 10 + (c.toNat - '0'.toNat))
      else none

/-- The Python `int` converter: integer parsing, raising (`none`) on
non-numeric text such as `"abc"`. -/
def intConv : Conv := fun s =>
  match s.data with
  | [] => none
  | '-' :: c :: cs => (parseDigits (c :: cs) 0).map (fun n => Value.int (-(n : Int)))
  | cs => (parseDigits cs 0).map (fun n => Value.int (n : Int))

/-- Switch descriptor for `a` (no converter, no default). -/
def descA : ArgDesc := { n := .name "a" }

/-- Switch descriptor for `a` with a declared `False` default. -/
def descADef : ArgDesc := { n := .name "a", d := some (.bool false) }

/-- Switch descriptor for `b`. -/
def descB : ArgDesc := { n := .name "b" }

/-- Switch descriptor for `c`. -/
def descC : ArgDesc := { n := .name "c" }

/-- Valued single-character descriptor for `o` with the identity converter. -/
def descO : ArgDesc := { n := .name "o", t := some strConv }

/-- Required valued descriptor for `count` with integer conversion and no
default. -/
def descCount : ArgDesc := { n := .name "count", t := some intConv, o := false }

/-- Positional descriptor for slot 1 (implicit string conversion). -/
def descP1 : ArgDesc := { n := .pos 1 }

/-- Positional descriptor for slot 2 (implicit string conversion). -/
def descP2 : ArgDesc := { n := .pos 2 }

/-- Valued descriptor with synonym set `('a', 'all')`. -/
def descAll : ArgDesc := { n := .syns "a" ["all"], t := some strConv }

/-- Switch descriptor with synonym set `('a', 'all')`. -/
def descAllSw : ArgDesc := { n := .syns "a" ["all"] }

/-- A synonym-aware mapping with registered set `('a', 'all')` holding the
value written through key `'a'`. -/
def synoAB : SynoDict Value :=
  (({} : SynoDict Value).register [.name "a", .name "all"]).setItem (.name "a") (.bool true)

/-! ## Cursor and measure lemmas -/

theorem drop_take_append_cons {α : Type} :
    ∀ (l : List α) (n : Nat) (x : α), n ≤ l.length →
      (l.take n ++ x :: l.drop n).drop n = x :: l.drop n
  | _, 0, _, _ => by simp
  | [], n + 1, x, h => by simp at h
  | a :: l, n + 1, x, h => by
      simpa using drop_take_append_cons l n x (Nat.le_of_succ_le_succ h)

theorem MarkedList.insertAtMark_mark (ml : MarkedList) (tok : String) :
    (ml.insertAtMark tok).mark = ml.mark := rfl

theorem MarkedList.insertAtMark_length (ml : MarkedList) (tok : String) :
    (ml.insertAtMark tok).lst.length = ml.lst.length + 1 := by
  simp only [MarkedList.insertAtMark, List.length_append, List.length_take,
    List.length_cons, List.length_drop]
  omega

theorem MarkedList.insertAtMark_drop (ml : MarkedList) (tok : String)
    (h : ml.mark ≤ ml.lst.length) :
    (ml.insertAtMark tok).lst.drop (ml.insertAtMark tok).mark = tok :: ml.lst.drop ml.mark :=
  drop_take_append_cons ml.lst ml.mark tok h

theorem MarkedList.get_eq_some {ml : MarkedList} {cur : String} {ml' : MarkedList}
    (h : ml.get = some (cur, ml')) :
    ml' = ⟨ml.lst, ml.mark + 1⟩ ∧ ml.mark < ml.lst.length ∧
      ml.lst.drop ml.mark = cur :: ml.lst.drop (ml.mark + 1) := by
  unfold MarkedList.get at h
  cases hx : ml.lst[ml.mark]? with
  | none => rw [hx] at h; cases h
  | some tok =>
      rw [hx] at h
      simp only [Option.some.injEq, Prod.mk.injEq] at h
      obtain ⟨h1, h2⟩ := h
      subst h1
      obtain ⟨hlt, hval⟩ := List.getElem?_eq_some_iff.mp hx
      refine ⟨h2.symm, hlt, ?_⟩
      rw [List.drop_eq_getElem_cons hlt, hval]

theorem tokenMeasure_pos (tok : String) : 0 < tokenMeasure tok :=
  Nat.pow_pos (by norm_num)

theorem listMeasure_cons (t : String) (ts : List String) :
    listMeasure (t :: ts) = tokenMeasure t + listMeasure ts := by
  simp [listMeasure]

theorem listMeasure_tail_le (ts : List String) : listMeasure ts.tail ≤ listMeasure ts := by
  cases ts with
  | nil => exact Nat.le_refl _
  | cons t ts => rw [listMeasure_cons]; exact Nat.le_add_left _ _

theorem splice_arith {t2l curl : Nat} (h1 : t2l + 1 ≤ curl) (h2 : 3 ≤ curl) :
    9 + 3 ^ t2l < 3 ^ curl := by
  have hA : 3 ^ (t2l + 1) ≤ 3 ^ curl := Nat.pow_le_pow_right (by norm_num) h1
  have hB : (27 : Nat) ≤ 3 ^ curl := by
    calc (27 : Nat) = 3 ^ 3 := by norm_num
    _ ≤ 3 ^ curl := Nat.pow_le_pow_right (by norm_num) h2
  rw [Nat.pow_succ] at hA
  omega

/-! ## What `load_one` does to the cursor -/

theorem ArgLoader.try_grab_next_ok {st : ArgLoader} {name param : String} {ml : MarkedList}
    (h : st.try_grab_next name = .ok (param, ml)) :
    ml = ⟨st.ml_args.lst, st.ml_args.mark + 1⟩ := by
  unfold ArgLoader.try_grab_next at h
  cases hg : st.ml_args.get with
  | none => rw [hg] at h; cases h
  | some p =>
      rw [hg] at h
      obtain ⟨tok, ml₀⟩ := p
      simp only [Except.ok.injEq, Prod.mk.injEq] at h
      obtain ⟨-, h2⟩ := h
      subst h2
      exact (MarkedList.get_eq_some hg).1

theorem ArgLoader.load_one_positional_ml {st : ArgLoader} {cur : String} {st' : ArgLoader}
    (h : st.load_one_positional cur = .ok st') : st'.ml_args = st.ml_args := by
  unfold ArgLoader.load_one_positional at h
  split at h
  · cases h
  · split at h
    · cases h
    · simp only [Except.ok.injEq] at h
      subst h
      rfl

theorem ArgLoader.load_one_nchar_ml {st : ArgLoader} {restChars : List Char} {st' : ArgLoader}
    (h : st.load_one_nchar restChars = .ok st') :
    st'.ml_args = st.ml_args ∨ st'.ml_args = ⟨st.ml_args.lst, st.ml_args.mark + 1⟩ := by
  unfold ArgLoader.load_one_nchar at h
  split at h
  · cases h
  · split at h
    · split at h
      · cases h
      · split at h
        · cases h
        · simp only [Except.ok.injEq] at h
          subst h
          right
          exact ArgLoader.try_grab_next_ok (by assumption)
    · simp only [Except.ok.injEq] at h
      subst h
      left
      rfl

theorem ArgLoader.load_one_1char_ml {st : ArgLoader} {focus : Char} {rest : List Char}
    {st' : ArgLoader} (h : st.load_one_1char focus rest = .ok st') :
    st'.ml_args = st.ml_args ∨ st'.ml_args = ⟨st.ml_args.lst, st.ml_args.mark + 1⟩ ∨
      (rest ≠ [] ∧ ∃ t2 : String,
        st'.ml_args = (st.ml_args.insertAtMark t2).insertAtMark (String.mk ['-', focus]) ∧
        t2 ≠ "" ∧ t2.length ≤ rest.length + 1) := by
  unfold ArgLoader.load_one_1char at h
  split at h
  · cases h
  · split at h
    · split at h
      · split at h
        · cases h
        · split at h
          · cases h
          · simp only [Except.ok.injEq] at h
            subst h
            right; left
            exact ArgLoader.try_grab_next_ok (by assumption)
      · rename_i hne
        simp only [Except.ok.injEq] at h
        subst h
        right; right
        have hrest : rest ≠ [] := by
          intro hc; rw [hc] at hne; exact hne rfl
        refine ⟨hrest, String.mk rest, rfl, ?_, ?_⟩
        · intro hc
          have : rest = [] := congrArg String.data hc
          exact hrest this
        · show rest.length ≤ rest.length + 1
          omega
    · split at h
      · simp only [Except.ok.injEq] at h
        subst h
        left
        rfl
      · rename_i hne
        simp only [Except.ok.injEq] at h
        subst h
        right; right
        have hrest : rest ≠ [] := by
          intro hc; rw [hc] at hne; exact hne rfl
        refine ⟨hrest, String.mk ('-' :: rest), rfl, ?_, ?_⟩
        · intro hc
          have : '-' :: rest = [] := congrArg String.data hc
          cases this
        · show ('-' :: rest).length ≤ rest.length + 1
          simp

theorem ArgLoader.load_one_ml {st : ArgLoader} {cur : String} {st' : ArgLoader}
    (h : st.load_one cur = .ok st') :
    st'.ml_args = st.ml_args ∨ st'.ml_args = ⟨st.ml_args.lst, st.ml_args.mark + 1⟩ ∨
      (∃ t1 t2 : String,
        st'.ml_args = (st.ml_args.insertAtMark t2).insertAtMark t1 ∧
        t1 ≠ "" ∧ t2 ≠ "" ∧ t1.length = 2 ∧ t2.length + 1 ≤ cur.length ∧ 3 ≤ cur.length) := by
  unfold ArgLoader.load_one at h
  split at h
  · cases h
  · exact Or.inl (ArgLoader.load_one_positional_ml h)
  · rename_i c0 c1 rest hdata
    have hlen : cur.length = rest.length + 2 := by
      show cur.data.length = _
      rw [hdata]
      simp
    split at h
    · exact Or.inl (ArgLoader.load_one_positional_ml h)
    · split at h
      · exact Or.inl (ArgLoader.load_one_positional_ml h)
      · split at h
        · rcases ArgLoader.load_one_1char_ml h with h1 | h1 | ⟨hrest, t2, hml, ht2, hle⟩
          · exact Or.inl h1
          · exact Or.inr (Or.inl h1)
          · refine Or.inr (Or.inr ⟨String.mk ['-', c1], t2, hml, ?_, ht2, rfl, ?_, ?_⟩)
            · intro hc
              cases congrArg String.data hc
            · have : 1 ≤ rest.length := by
                cases rest with
                | nil => exact absurd rfl hrest
                | cons _ _ => simp
              omega
            · have : 1 ≤ rest.length := by
                cases rest with
                | nil => exact absurd rfl hrest
                | cons _ _ => simp
              omega
        · rcases ArgLoader.load_one_nchar_ml h with h1 | h1
          · exact Or.inl h1
          · exact Or.inr (Or.inl h1)

/-! ## Termination of the parse loop -/

theorem ArgLoader.load_one_measure {st : ArgLoader} {cur : String} {ml : MarkedList}
    {st' : ArgLoader} (hget : st.ml_args.get = some (cur, ml))
    (h : ArgLoader.load_one { st with ml_args := ml } cur = .ok st') :
    st'.measure < st.measure := by
  obtain ⟨hml, hlt, hdrop⟩ := MarkedList.get_eq_some hget
  subst hml
  have hmeas : st.measure =
      tokenMeasure cur + listMeasure (st.ml_args.lst.drop (st.ml_args.mark + 1)) := by
    show listMeasure (st.ml_args.lst.drop st.ml_args.mark) = _
    rw [hdrop, listMeasure_cons]
  rcases ArgLoader.load_one_ml h with h1 | h1 | ⟨t1, t2, hml', ht1, ht2, ht1len, ht2len, hcurlen⟩
  · show listMeasure (st'.ml_args.lst.drop st'.ml_args.mark) < st.measure
    rw [h1, hmeas]
    have hpos := tokenMeasure_pos cur
    show listMeasure (st.ml_args.lst.drop (st.ml_args.mark + 1)) < _
    omega
  · show listMeasure (st'.ml_args.lst.drop st'.ml_args.mark) < st.measure
    rw [h1, hmeas]
    show listMeasure (st.ml_args.lst.drop (st.ml_args.mark + 1 + 1)) < _
    have htail : st.ml_args.lst.drop (st.ml_args.mark + 1 + 1) =
        (st.ml_args.lst.drop (st.ml_args.mark + 1)).tail := (List.tail_drop _ _).symm
    rw [htail]
    have h2 := listMeasure_tail_le (st.ml_args.lst.drop (st.ml_args.mark + 1))
    have hpos := tokenMeasure_pos cur
    omega
  · -- splice: the bundle token is replaced by two strictly cheaper tokens
    have hmark1 : (⟨st.ml_args.lst, st.ml_args.mark + 1⟩ : MarkedList).mark ≤
        (⟨st.ml_args.lst, st.ml_args.mark + 1⟩ : MarkedList).lst.length := hlt
    have hmark2 : ((⟨st.ml_args.lst, st.ml_args.mark + 1⟩ : MarkedList).insertAtMark t2).mark ≤
        ((⟨st.ml_args.lst, st.ml_args.mark + 1⟩ : MarkedList).insertAtMark t2).lst.length := by
      rw [MarkedList.insertAtMark_mark, MarkedList.insertAtMark_length]
      show st.ml_args.mark + 1 ≤ st.ml_args.lst.length + 1
      omega
    have hrem : ((((⟨st.ml_args.lst, st.ml_args.mark + 1⟩ : MarkedList).insertAtMark
          t2).insertAtMark t1).lst).drop
          (((⟨st.ml_args.lst, st.ml_args.mark + 1⟩ : MarkedList).insertAtMark
          t2).insertAtMark t1).mark =
        t1 :: t2 :: st.ml_args.lst.drop (st.ml_args.mark + 1) := by
      rw [MarkedList.insertAtMark_drop _ t1 hmark2,
        MarkedList.insertAtMark_drop _ t2 hmark1]
    show listMeasure (st'.ml_args.lst.drop st'.ml_args.mark) < st.measure
    rw [hml', hmeas]
    have hstml : ({ st with ml_args := ⟨st.ml_args.lst, st.ml_args.mark + 1⟩ } :
        ArgLoader).ml_args = (⟨st.ml_args.lst, st.ml_args.mark + 1⟩ : MarkedList) := rfl
    rw [hstml, hrem, listMeasure_cons, listMeasure_cons]
    have harith : tokenMeasure t1 + tokenMeasure t2 < tokenMeasure cur := by
      unfold tokenMeasure
      rw [ht1len]
      have hs := splice_arith ht2len hcurlen
      omega
    omega

theorem ArgLoader.load_all_isSome : ∀ (fuel : Nat) (st : ArgLoader),
    st.measure < fuel → (ArgLoader.load_all fuel st).isSome := by
  intro fuel
  induction fuel with
  | zero => intro st h; cases h
  | succ fuel ih =>
      intro st h
      rw [ArgLoader.load_all]
      cases hget : st.ml_args.get with
      | none => exact rfl
      | some p =>
          obtain ⟨cur, ml⟩ := p
          show (match ArgLoader.load_one { st with ml_args := ml } cur with
              | Except.error e => some (Except.error e)
              | Except.ok st2 => ArgLoader.load_all fuel st2).isSome = true
          cases hone : ArgLoader.load_one { st with ml_args := ml } cur with
          | error e => exact rfl
          | ok st' =>
              have hdec := ArgLoader.load_one_measure hget hone
              exact ih st' (by omega)

theorem ArgLoader.load_all_mono : ∀ (fuel fuel' : Nat) (st : ArgLoader)
    (r : Except ParseErr (List (Key × Value))),
    ArgLoader.load_all fuel st = some r → fuel ≤ fuel' →
    ArgLoader.load_all fuel' st = some r := by
  intro fuel
  induction fuel with
  | zero => intro fuel' st r h _; rw [ArgLoader.load_all] at h; cases h
  | succ fuel ih =>
      intro fuel' st r h hle
      obtain ⟨fuel2, rfl⟩ : ∃ k, fuel' = k + 1 := ⟨fuel' - 1, by omega⟩
      rw [ArgLoader.load_all] at h ⊢
      cases hget : st.ml_args.get with
      | none =>
          rw [hget] at h
          exact h
      | some p =>
          obtain ⟨cur, ml⟩ := p
          rw [hget] at h
          have h2 : (match ArgLoader.load_one { st with ml_args := ml } cur with
              | Except.error e => some (Except.error e)
              | Except.ok st2 => ArgLoader.load_all fuel st2) = some r := h
          show (match ArgLoader.load_one { st with ml_args := ml } cur with
              | Except.error e => some (Except.error e)
              | Except.ok st2 => ArgLoader.load_all fuel2 st2) = some r
          cases hone : ArgLoader.load_one { st with ml_args := ml } cur with
          | error e => rw [hone] at h2; exact h2
          | ok st' =>
              rw [hone] at h2
              exact ih fuel2 st' r h2 (by omega)

/-! ## The out-of-bounds error arises only from classifying an empty token -/

theorem ArgLoader.try_recognize_ne {st : ArgLoader} {name : Key} {printName : String} :
    st.try_recognize name printName ≠ .error .indexError := by
  unfold ArgLoader.try_recognize
  split <;> simp

theorem ArgLoader.try_translate_ne {param : String} {argdesc : ArgDesc} {name : String} :
    ArgLoader.try_translate param argdesc name ≠ .error .indexError := by
  unfold ArgLoader.try_translate
  split
  · simp
  · split <;> simp

theorem ArgLoader.try_grab_next_ne {st : ArgLoader} {name : String} :
    st.try_grab_next name ≠ .error .indexError := by
  unfold ArgLoader.try_grab_next
  split <;> simp

theorem ArgLoader.load_one_positional_ne {st : ArgLoader} {cur : String} :
    st.load_one_positional cur ≠ .error .indexError := by
  unfold ArgLoader.load_one_positional
  split
  · rename_i e heq
    intro hc
    simp only [Except.error.injEq] at hc
    subst hc
    exact ArgLoader.try_recognize_ne heq
  · split
    · rename_i e heq
      intro hc
      simp only [Except.error.injEq] at hc
      subst hc
      exact ArgLoader.try_translate_ne heq
    · simp

theorem ArgLoader.load_one_1char_ne {st : ArgLoader} {focus : Char} {rest : List Char} :
    st.load_one_1char focus rest ≠ .error .indexError := by
  unfold ArgLoader.load_one_1char
  split
  · rename_i e heq
    intro hc
    simp only [Except.error.injEq] at hc
    subst hc
    exact ArgLoader.try_recognize_ne heq
  · split
    · split
      · split
        · rename_i e heq
          intro hc
          simp only [Except.error.injEq] at hc
          subst hc
          exact ArgLoader.try_grab_next_ne heq
        · split
          · rename_i e heq
            intro hc
            simp only [Except.error.injEq] at hc
            subst hc
            exact ArgLoader.try_translate_ne heq
          · simp
      · simp
    · split <;> simp

theorem ArgLoader.load_one_nchar_ne {st : ArgLoader} {restChars : List Char} :
    st.load_one_nchar restChars ≠ .error .indexError := by
  unfold ArgLoader.load_one_nchar
  split
  · rename_i e heq
    intro hc
    simp only [Except.error.injEq] at hc
    subst hc
    exact ArgLoader.try_recognize_ne heq
  · split
    · split
      · rename_i e heq
        intro hc
        simp only [Except.error.injEq] at hc
        subst hc
        exact ArgLoader.try_grab_next_ne heq
      · split
        · rename_i e heq
          intro hc
          simp only [Except.error.injEq] at hc
          subst hc
          exact ArgLoader.try_translate_ne heq
        · simp
    · simp

theorem ArgLoader.load_one_ne {st : ArgLoader} {cur : String} (hcur : cur ≠ "") :
    st.load_one cur ≠ .error .indexError := by
  unfold ArgLoader.load_one
  split
  · rename_i hdata
    exfalso
    apply hcur
    cases cur with
    | mk data => rw [show data = [] from hdata]
  · exact ArgLoader.load_one_positional_ne
  · split
    · exact ArgLoader.load_one_positional_ne
    · split
      · exact ArgLoader.load_one_positional_ne
      · split
        · exact ArgLoader.load_one_1char_ne
        · exact ArgLoader.load_one_nchar_ne

theorem ArgLoader.load_all_no_indexError : ∀ (fuel : Nat) (st : ArgLoader),
    (∀ t ∈ st.ml_args.lst.drop st.ml_args.mark, t ≠ "") →
    ArgLoader.load_all fuel st ≠ some (.error .indexError) := by
  intro fuel
  induction fuel with
  | zero => intro st _; rw [ArgLoader.load_all]; simp
  | succ fuel ih =>
      intro st hinv
      rw [ArgLoader.load_all]
      cases hget : st.ml_args.get with
      | none => simp
      | some p =>
          obtain ⟨cur, ml⟩ := p
          obtain ⟨hml, hlt, hdrop⟩ := MarkedList.get_eq_some hget
          have hcur : cur ≠ "" := by
            apply hinv cur
            rw [hdrop]
            exact List.mem_cons_self _ _
          show (match ArgLoader.load_one { st with ml_args := ml } cur with
              | Except.error e => some (Except.error e)
              | Except.ok st2 => ArgLoader.load_all fuel st2) ≠ some (.error .indexError)
          cases hone : ArgLoader.load_one { st with ml_args := ml } cur with
          | error e =>
              intro hc
              simp only [Option.some.injEq, Except.error.injEq] at hc
              subst hc
              exact ArgLoader.load_one_ne hcur hone
          | ok st' =>
              apply ih
              subst hml
              intro t ht
              rcases ArgLoader.load_one_ml hone with h1 | h1 | ⟨t1, t2, hml', ht1, ht2, -, -, -⟩
              · rw [h1] at ht
                apply hinv t
                rw [hdrop]
                exact List.mem_cons_of_mem _ ht
              · rw [h1] at ht
                have ht' : t ∈ st.ml_args.lst.drop (st.ml_args.mark + 1) := by
                  have htail : (st.ml_args.lst.drop (st.ml_args.mark + 1)).tail =
                      st.ml_args.lst.drop (st.ml_args.mark + 1 + 1) := List.tail_drop _ _
                  rw [← htail] at ht
                  exact List.mem_of_mem_tail ht
                apply hinv t
                rw [hdrop]
                exact List.mem_cons_of_mem _ ht'
              · rw [hml'] at ht
                have hmark1 : (⟨st.ml_args.lst, st.ml_args.mark + 1⟩ : MarkedList).mark ≤
                    (⟨st.ml_args.lst, st.ml_args.mark + 1⟩ : MarkedList).lst.length := hlt
                have hmark2 :
                    ((⟨st.ml_args.lst, st.ml_args.mark + 1⟩ : MarkedList).insertAtMark t2).mark ≤
                    ((⟨st.ml_args.lst, st.ml_args.mark + 1⟩ :
                      MarkedList).insertAtMark t2).lst.length := by
                  rw [MarkedList.insertAtMark_mark, MarkedList.insertAtMark_length]
                  show st.ml_args.mark + 1 ≤ st.ml_args.lst.length + 1
                  omega
                have hrem : ((((⟨st.ml_args.lst, st.ml_args.mark + 1⟩ : MarkedList).insertAtMark
                      t2).insertAtMark t1).lst).drop
                      (((⟨st.ml_args.lst, st.ml_args.mark + 1⟩ : MarkedList).insertAtMark
                      t2).insertAtMark t1).mark =
                    t1 :: t2 :: st.ml_args.lst.drop (st.ml_args.mark + 1) := by
                  rw [MarkedList.insertAtMark_drop _ t1 hmark2,
                    MarkedList.insertAtMark_drop _ t2 hmark1]
                rw [hrem] at ht
                rw [List.mem_cons, List.mem_cons] at ht
                rcases ht with ht | ht | ht
                · subst ht; exact ht1
                · subst ht; exact ht2
                · apply hinv t
                  rw [hdrop]
                  exact List.mem_cons_of_mem _ ht

/-! ## Claims -/

/-- Claim C1: the first half holds — parsing `["-a"]` against the switch
descriptor for `a` binds `a` to `True` — and a declared default is seeded on
the empty input; but the second half fails on the code: with no declared
default, parsing `[]` returns an empty mapping with no binding for `a` at
all, rather than binding `a` to `False` as the claim (and the `process`
docstring) state.  This theorem evaluates the code at the failing input. -/
theorem claim_C1_switch_no_false_seeding :
    process [descA] ["-a"] = some (.ok [(Key.name "a", Value.bool true)]) ∧
    process [descADef] [] = some (.ok [(Key.name "a", Value.bool false)]) ∧
    process [descA] [] = some (.ok []) ∧
    resultLookup (process [descA] []) (.name "a") = none :=
  ⟨rfl, rfl, rfl, rfl⟩

/-- Claim C2: writing through one synonym of a registered pair is observable
through the other, but deletion through a synonym does not remove the entry
for every key of the set: `__getsyns` duplicates the requested key, so
`__delitem__` deletes it once and then raises `KeyError` (modelled as
`none`) on the duplicate, contradicting the claim (and the class's own
always-equal invariant).  This theorem evaluates the code at the failing
input. -/
theorem claim_C2_delitem_raises :
    synoAB.entries = [(Key.name "a", Value.bool true), (Key.name "all", Value.bool true)] ∧
    findEntry synoAB.entries (.name "all") = some (.bool true) ∧
    synoAB.delItem (.name "a") = none :=
  ⟨rfl, rfl, rfl⟩

/-- Claim C4: parsing the bundled token `["-abc"]` where `a`, `b`, `c` are
all switches binds each of them to `True`, via repeated splicing of the
decomposed tokens in front of the cursor. -/
theorem claim_C4_bundle :
    process [descA, descB, descC] ["-abc"] =
      some (.ok [(Key.name "a", Value.bool true), (Key.name "b", Value.bool true),
        (Key.name "c", Value.bool true)]) :=
  rfl

/-- Claim C5: positional tokens fill 1-based slots in order of appearance,
counting only positional resolutions even when named tokens are consumed in
between, and a positional token with no descriptor for its slot fails with
`UnrecognizedArgument`. -/
theorem claim_C5_positional :
    process [descP1, descP2] ["x", "y"] =
      some (.ok [(Key.pos 1, Value.str "x"), (Key.pos 2, Value.str "y")]) ∧
    process [descP1, descP2] ["x", "y", "z"] = some (.error (.unrecognized "3")) ∧
    process [descP1, descP2, descA] ["x", "-a", "y"] =
      some (.ok [(Key.pos 1, Value.str "x"), (Key.name "a", Value.bool true),
        (Key.pos 2, Value.str "y")]) :=
  ⟨rfl, rfl, rfl⟩

/-- Claim C6: when the declared converter rejects the raw value token, the
parse fails with `InvalidArgumentValue` naming the offending flag and the
raw text, and no partial result is returned. -/
theorem claim_C6_invalid_value :
    process [descCount] ["--count", "abc"] =
      some (.error (.invalidValue "--count" "abc")) :=
  rfl

/-- Claim C7: a resolved value appears in the returned mapping under the
argument's canonical key — the first synonym name — even when supplied via a
non-first synonym such as `--all` for the synonym set `('a', 'all')`. -/
theorem claim_C7_canonical_key :
    resultLookup (process [descAll] ["--all", "v"]) (.name "a") = some (.str "v") ∧
    resultLookup (process [descAllSw] ["--all"]) (.name "a") = some (.bool true) :=
  ⟨rfl, rfl⟩

/-- Claim C8: omission of a required argument is not detected: with a named
valued descriptor that is not optional and has no default, a parse in which
the flag never appears completes without error and the returned mapping
simply lacks the key. -/
theorem claim_C8_no_required_check :
    process [descCount, descA] ["-a"] = some (.ok [(Key.name "a", Value.bool true)]) ∧
    resultLookup (process [descCount, descA] ["-a"]) (.name "count") = none ∧
    process [descCount] [] = some (.ok []) :=
  ⟨rfl, rfl, rfl⟩

/-- Claim C9: for every schema and every finite token list the parse loop
terminates: the `3 ^ length` token measure strictly decreases at every
iteration (each flag-bundle splice replaces the bundle token by strictly
cheaper tokens), so `process` — which supplies fuel one more than the
measure of the input — always yields a result. -/
theorem claim_C9_terminates (arg_descs : List ArgDesc) (args : List String) :
    (process arg_descs args).isSome := by
  apply ArgLoader.load_all_isSome
  show listMeasure (List.drop 0 args) < listMeasure args + 1
  rw [List.drop_zero]
  omega

theorem listMeasure_singleton (t : String) : listMeasure [t] = tokenMeasure t := by
  simp [listMeasure]

/-- Claim C3: for a valued single-character descriptor `o` with identity
converter and every non-empty value string `v`, the attached form
`["-o" ++ v]` parses to the same output mapping as the separate form
`["-o", v]`; in particular both parses of `"val"` bind `o` to `"val"`. -/
theorem claim_C3_attached_value (v : String) (hv : v ≠ "") :
    process [descO] ["-o" ++ v] = process [descO] ["-o", v] ∧
    process [descO] ["-oval"] = some (.ok [(Key.name "o", Value.str "val")]) := by
  constructor
  · obtain ⟨data⟩ := v
    cases data with
    | nil => exact absurd rfl hv
    | cons c cs =>
        have h1 : ArgLoader.load_all 4 (ArgLoader.init [descO] ["-o" ++ String.mk (c :: cs)]) =
            some (.ok [(Key.name "o", Value.str (String.mk (c :: cs)))]) := rfl
        have h2 : ArgLoader.load_all 3 (ArgLoader.init [descO] ["-o", String.mk (c :: cs)]) =
            some (.ok [(Key.name "o", Value.str (String.mk (c :: cs)))]) := rfl
        have hlen : ("-o" ++ String.mk (c :: cs)).length = cs.length + 3 := rfl
        have h3 : (3 : Nat) ≤ 3 ^ (cs.length + 3) := by
          calc (3 : Nat) = 3 ^ 1 := by norm_num
          _ ≤ 3 ^ (cs.length + 3) := Nat.pow_le_pow_right (by norm_num) (by omega)
        have hf1 : 4 ≤ listMeasure ["-o" ++ String.mk (c :: cs)] + 1 := by
          rw [listMeasure_singleton]
          unfold tokenMeasure
          rw [hlen]
          omega
        have hf2 : 3 ≤ listMeasure ["-o", String.mk (c :: cs)] + 1 := by
          have h9 : listMeasure ["-o", String.mk (c :: cs)] =
              9 + tokenMeasure (String.mk (c :: cs)) := by
            simp [listMeasure]
            rfl
          omega
        have H1 := ArgLoader.load_all_mono 4 (listMeasure ["-o" ++ String.mk (c :: cs)] + 1)
          (ArgLoader.init [descO] ["-o" ++ String.mk (c :: cs)])
          (.ok [(Key.name "o", Value.str (String.mk (c :: cs)))]) h1 hf1
        have H2 := ArgLoader.load_all_mono 3 (listMeasure ["-o", String.mk (c :: cs)] + 1)
          (ArgLoader.init [descO] ["-o", String.mk (c :: cs)])
          (.ok [(Key.name "o", Value.str (String.mk (c :: cs)))]) h2 hf2
        show ArgLoader.load_all (listMeasure ["-o" ++ String.mk (c :: cs)] + 1)
            (ArgLoader.init [descO] ["-o" ++ String.mk (c :: cs)]) =
          ArgLoader.load_all (listMeasure ["-o", String.mk (c :: cs)] + 1)
            (ArgLoader.init [descO] ["-o", String.mk (c :: cs)])
        rw [H1, H2]
  · rfl

/-- Witness for C3 at the concrete value `"val"`. -/
theorem claim_C3_witness :
    process [descO] ["-o" ++ "val"] = process [descO] ["-o", "val"] ∧
    process [descO] ["-oval"] = some (.ok [(Key.name "o", Value.str "val")]) :=
  claim_C3_attached_value "val" (by decide)

/-- Counterexample to claim C10 as stated: the token list `["-o", ""]`
contains the empty string, yet the parse succeeds (the empty token is
consumed as the flag's value by `try_grab_next` and never reaches the
per-token classifier), so no out-of-bounds error is raised. -/
theorem claim_C10_counterexample :
    ("" ∈ ["-o", ""]) ∧
    process [descO] ["-o", ""] = some (.ok [(Key.name "o", Value.str "")]) ∧
    process [descO] ["-o", ""] ≠ some (.error .indexError) := by
  refine ⟨by simp, rfl, ?_⟩
  intro hc
  rw [show process [descO] ["-o", ""] =
    some (.ok [(Key.name "o", Value.str "")]) from rfl] at hc
  simp at hc

/-- Claim C10, amended: the per-token classifier inspects the first
character unguarded, so an empty token raises the out-of-bounds error —
which is none of the three parse errors — exactly when the classifier
reaches it (as in parsing `[""]` against any schema); an empty token
consumed as a flag's value is never classified.  For token lists whose
tokens are all non-empty the first-character access is always in bounds and
the out-of-bounds error never occurs. -/
theorem claim_C10_empty_token :
    (∀ arg_descs : List ArgDesc, process arg_descs [""] = some (.error .indexError)) ∧
    (∀ (arg_descs : List ArgDesc) (args : List String), (∀ t ∈ args, t ≠ "") →
      process arg_descs args ≠ some (.error .indexError)) :=
  ⟨fun _ => rfl,
   fun arg_descs args hne => ArgLoader.load_all_no_indexError (listMeasure args + 1)
     (ArgLoader.init arg_descs args) hne⟩

/-- Witness for C10 at concrete inputs. -/
theorem claim_C10_witness :
    process [] [""] = some (.error .indexError) ∧
    process [] ["x"] ≠ some (.error .indexError) :=
  ⟨claim_C10_empty_token.1 [], claim_C10_empty_token.2 [] ["x"] (by simp)⟩
